import Mathlib

/-!
Shallow embedding of the `TractorGuruClient` scraping client
(`src/services/tractorguru_client.py`) and of the two thin HTTP handlers
`api_tg_brand_models` / `api_tg_model_details` (`src/main.py`).

Modelling choices:

* The HTTP network is an explicit environment `env : String → FetchResult`
  mapping a resolved absolute URL to either the page markup (`Except.ok`)
  or a fetch failure (`Except.error`), which models both network failures
  and `raise_for_status` on non-2xx responses.  Each call of `env` inside
  an operation is one network fetch; every operation additionally returns
  the number of network fetches it performed.
* `BeautifulSoup(html, "lxml")` together with the CSS selections the client
  performs is modelled as an opaque parameter `parse : String → Doc`, where
  `Doc` records exactly the query results the client reads: all anchors with
  an `href` attribute (in document order), the elements matched by the brand
  fallback selector, the elements matched by the model-card selector, the
  first `h1` text, the document `title` text, every table (as rows of cells,
  each cell tagged `th` or not), and every `img` `src` attribute.
* The `cachetools.TTLCache` instances are modelled as association lists /
  an `Option`; the claims under study quantify over behaviour strictly
  inside one 24-hour window (two consecutive calls) or on a fresh cache
  (an expired window), so an entry is either present (within the window)
  or absent (fresh / expired), with no timestamp arithmetic needed.
* Python string operations are modelled on `String.data` character lists:
  `str.strip` drops whitespace runs at both ends (`pystrip`),
  `str.lower` maps `Char.toLower` (`pylower`), `str.rstrip("/")` /
  `str.lstrip("/")` drop slash runs, `str.startswith` compares a prefix of
  the character list, `in` is contiguous containment (`containsSub`),
  truthiness of a string is `≠ ""`, and `len` is the character count.
* `urljoin(base + "/", rel)` is modelled for the reference shapes this
  client produces: a relative reference without scheme or dot-segments is
  concatenated onto the base origin, and a reference carrying an `http://`
  or `https://` scheme is taken verbatim.
* All operations are total Lean functions returning plain values; the only
  failures are the explicit `Except.error` results of the fetcher, which
  the model threads exactly where the Python exceptions propagate.
-/

namespace TG

/-- Result of one HTTP GET: markup on success, an error message on a
network failure or non-2xx status (`response.raise_for_status()`). -/
abbrev FetchResult := Except String String

/-! ## Python string primitives -/

/-- Python `s.startswith("/")`. -/
def startsWithSlash (s : String) : Bool := decide (s.data.head? = some '/')

/-- Python `s.startswith("http")`. -/
def startsWithHttp (s : String) : Bool := decide (s.data.take 4 = "http".data)

/-- Scheme detection of `urllib.parse.urljoin` for the schemes that occur
in this client: a reference starting with `http://` or `https://` is
absolute. -/
def startsWithHttpScheme (s : String) : Bool :=
  decide (s.data.take 7 = "http://".data) || decide (s.data.take 8 = "https://".data)

/-- Python `s.rstrip("/")`: drop every trailing `'/'`. -/
def rstripSlash (s : String) : String :=
  String.mk ((s.data.reverse.dropWhile (fun c => c == '/')).reverse)

/-- Python `s.lstrip("/")`: drop every leading `'/'`. -/
def lstripSlash (s : String) : String :=
  String.mk (s.data.dropWhile (fun c => c == '/'))

/-- Python `s if s.startswith("/") else f"/{s}"`. -/
def ensureLeadingSlash (s : String) : String :=
  if startsWithSlash s then s else String.mk ('/' :: s.data)

/-- `s.data.getLast? = some '/'`, i.e. the string has a trailing slash. -/
def endsWithSlash (s : String) : Bool := decide (s.data.getLast? = some '/')

/-- Whether `pat` is a prefix of `l` (by character equality). -/
def prefixOf : List Char → List Char → Bool
  | [], _ => true
  | _ :: _, [] => false
  | a :: as, b :: bs => a == b && prefixOf as bs

/-- Whether `pat` occurs as a contiguous run inside `l`. -/
def infixOf (pat : List Char) : List Char → Bool
  | [] => prefixOf pat []
  | c :: rest => prefixOf pat (c :: rest) || infixOf pat rest

/-- Python `pat in s` (substring containment). -/
def containsSub (s pat : String) : Bool := infixOf pat.data s.data

/-- Python whitespace, for `str.strip()`. -/
def isPySpace (c : Char) : Bool :=
  c == ' ' || c == '\t' || c == '\n' || c == '\r' || c == '\x0b' || c == '\x0c'

/-- Python `s.strip()`: drop leading and trailing whitespace. -/
def pystrip (s : String) : String :=
  String.mk (((s.data.dropWhile isPySpace).reverse.dropWhile isPySpace).reverse)

/-- Python `s.lower()` (ASCII case folding, which covers every pattern this
client lowercases against). -/
def pylower (s : String) : String := String.mk (s.data.map Char.toLower)

/-! ## Parsed-document model (the BeautifulSoup query results) -/

/-- An `<a>` element with an `href` attribute, as returned by
`soup.find_all("a", href=True)`: the raw attribute value and the
stripped text `a.get_text(strip=True)`. -/
structure Anchor where
  href : String
  text : String
deriving DecidableEq, Repr

/-- An element matched by the brand fallback selector
`div[class*="brand"], li[class*="brand"], a[class*="brand"]`:
whether its tag is `a`, its raw `href` attribute if present, and its
stripped text. -/
structure BrandCard where
  isA : Bool
  href : Option String
  text : String
deriving DecidableEq, Repr

/-- An element matched by the model selector
`a[href*="/tractor"], div[class*="model"], li[class*="model"]`.
`anchor` is an `<a>` with a (necessarily nonempty) `href` containing
`/tractor`; `container` is a `div`/`li`, carrying the `(href, text)` of
its first descendant anchor (if any), the `src` of its first image (if
any), and the first descendant string matching the price regex (if
any). -/
inductive ModelCard where
  | anchor (href : String) (text : String)
  | container (link : Option (String × String)) (img : Option String)
      (price : Option String)
deriving DecidableEq, Repr

/-- A table cell: whether it is a `<th>`, and its stripped text. -/
structure Cell where
  isTh : Bool
  text : String
deriving DecidableEq, Repr

/-- The parsed view of one page: exactly the query results the client
reads, each in document order. A table is its list of `<tr>` rows, each
row its list of `<td>`/`<th>` cells. -/
structure Doc where
  anchors : List Anchor
  brandCards : List BrandCard
  modelCards : List ModelCard
  h1 : Option String
  title : Option String
  tables : List (List (List Cell))
  imgs : List String
deriving DecidableEq, Repr

/-- The parse of a page with no matching elements at all. -/
def Doc.empty : Doc := ⟨[], [], [], none, none, [], []⟩

/-! ## Result records -/

/-- A brand entry as built by `get_brands`. -/
structure Brand where
  name : String
  path : String
  url : String
deriving DecidableEq, Repr

/-- A model entry as built by `get_brand_models`. -/
structure Model where
  name : String
  path : String
  url : String
  thumbnail : Option String
  price : Option String
deriving DecidableEq, Repr

/-- The record built by `get_model_details`. -/
structure ModelDetail where
  title : String
  path : String
  url : String
  specs : List (String × String)
  images : List String
deriving DecidableEq, Repr

/-! ## Caches -/

/-- Ordered-dictionary lookup on an association list (Python `dict`
lookup / `key in cache`). -/
def alookup {α : Type} (l : List (String × α)) (k : String) : Option α :=
  match l with
  | [] => none
  | kv :: rest => if kv.1 == k then some kv.2 else alookup rest k

/-- Python `dict` assignment `d[k] = v` on an insertion-ordered
association list: replace in place when the key is present, append
otherwise. -/
def upsert {α : Type} (l : List (String × α)) (k : String) (v : α) :
    List (String × α) :=
  if l.any (fun kv => kv.1 == k) then
    l.map (fun kv => if kv.1 == k then (k, v) else kv)
  else l ++ [(k, v)]

/-- The four module caches of one `TractorGuruClient` instance, within one
TTL window: `_page_cache`, `_brands_cache` (single fixed key `"brands"`,
hence an `Option`), `_models_cache`, `_details_cache`. -/
structure ClientState where
  pageCache : List (String × String)
  brandsCache : Option (List Brand)
  modelsCache : List (String × List Model)
  detailsCache : List (String × ModelDetail)
deriving DecidableEq, Repr

/-- A fresh client (or one whose TTL window has fully elapsed). -/
def ClientState.empty : ClientState := ⟨[], none, [], []⟩

/-! ## `_fetch` -/

/-- URL resolution of `_fetch`: an input already carrying a scheme is used
verbatim; otherwise it is made site-relative with exactly one leading
slash and joined onto the base origin
(`urljoin(self.base_url + "/", path.lstrip("/"))`). -/
def resolveUrl (base pathOrUrl : String) : String :=
  if startsWithHttp pathOrUrl then pathOrUrl
  else
    let path := ensureLeadingSlash pathOrUrl
    let rel := lstripSlash path
    if startsWithHttpScheme rel then rel else base ++ "/" ++ rel

/-- `urljoin(self.base_url + "/", key.lstrip("/"))` as used to build the
`url` fields of the result records. -/
def urljoinBase (base key : String) : String :=
  let rel := lstripSlash key
  if startsWithHttpScheme rel then rel else base ++ "/" ++ rel

/-- `_fetch`: resolve the URL, serve from `_page_cache` on a hit, otherwise
issue one network GET, store the markup on success (write-through) and
return it; a failing GET is one network fetch and leaves the cache
untouched.  Returns (result, new page cache, number of network
fetches). -/
def fetchPage (env : String → FetchResult) (base : String)
    (pc : List (String × String)) (pathOrUrl : String) :
    FetchResult × List (String × String) × Nat :=
  let url := resolveUrl base pathOrUrl
  match alookup pc url with
  | some html => (Except.ok html, pc, 0)
  | none =>
    match env url with
    | Except.ok html => (Except.ok html, (url, html) :: pc, 1)
    | Except.error e => (Except.error e, pc, 1)

/-! ## `get_brands` -/

/-- The fixed ordered candidate brand-listing paths. -/
def possible_paths : List String :=
  ["/tractor-brands", "/tractor-brand", "/tractor/brands"]

/-- The candidate loop of `get_brands`: try each path in order through
`_fetch`; a successful fetch overwrites the running `html` value and the
loop stops early when the markup is nonempty and longer than 500
characters; an exception leaves `html` unchanged and continues.  Returns
(final `html` value, page cache, fetch count). -/
def tryPathsGo (env : String → FetchResult) (base : String) :
    List String → Option String → List (String × String) → Nat →
    Option String × List (String × String) × Nat
  | [], acc, pc, n => (acc, pc, n)
  | p :: ps, acc, pc, n =>
    match fetchPage env base pc p with
    | (Except.ok h, pc', k) =>
      if h ≠ "" ∧ 500 < h.length then (some h, pc', n + k)
      else tryPathsGo env base ps (some h) pc' (n + k)
    | (Except.error _, pc', k) => tryPathsGo env base ps acc pc' (n + k)

/-- The brand-href regex test
`re.search(r"/tractor-?brands?/", href, re.IGNORECASE) or
re.search(r"/brand/", href, re.IGNORECASE)`, written out as the four
expansions of the optional groups plus the second pattern, matched
case-insensitively as substrings. -/
def isBrandHref (href : String) : Bool :=
  let h := pylower href
  containsSub h "/tractor-brands/" || containsSub h "/tractor-brand/" ||
  containsSub h "/tractorbrands/" || containsSub h "/tractorbrand/" ||
  containsSub h "/brand/"

/-- Primary brand heuristic: every anchor with nonempty stripped text whose
stripped href matches the brand-link patterns, as `(text, href)`. -/
def brandLinksPrimary (doc : Doc) : List (String × String) :=
  doc.anchors.filterMap (fun a =>
    let href := pystrip a.href
    let text := a.text
    if text = "" then none
    else if isBrandHref href then some (text, href) else none)

/-- Fallback brand heuristic: among the elements matched by the
`class*="brand"` selector, keep the `<a>` tags with a truthy `href`
attribute and nonempty text (the non-anchor cards are skipped by the
Python loop). -/
def brandLinksFallback (doc : Doc) : List (String × String) :=
  doc.brandCards.filterMap (fun c =>
    if c.isA then
      match c.href with
      | some h => if h = "" then none
          else if c.text = "" then none else some (c.text, pystrip h)
      | none => none
    else none)

/-- The brand links fed into normalisation: the fallback is used only when
the primary heuristic found nothing. -/
def brandLinks (doc : Doc) : List (String × String) :=
  let primary := brandLinksPrimary doc
  if primary.isEmpty then brandLinksFallback doc else primary

/-- The junk filter `len(name) < 2 or "http" in name.lower()`. -/
def junkName (name : String) : Bool :=
  decide (name.length < 2) || containsSub (pylower name) "http"

/-- Path normalisation of `get_brands`: an href starting with `http` is
kept as is, any other href gets exactly one leading slash; trailing
slashes are stripped. -/
def normKey (href : String) : String :=
  let slug := if startsWithHttp href then href else ensureLeadingSlash href
  rstripSlash slug

/-- Build one brand record from a kept `(name, href)` link. -/
def mkBrand (base : String) (nh : String × String) : Brand :=
  { name := nh.1, path := normKey nh.2, url := urljoinBase base (normKey nh.2) }

/-- The normalise-and-dedupe loop of `get_brands`: skip junk names, skip a
link whose normalised key was already seen, otherwise emit the brand and
remember the key (first occurrence wins). -/
def dedupeBrandsGo (base : String) :
    List (String × String) → List String → List Brand
  | [], _ => []
  | nh :: rest, seen =>
    if junkName nh.1 then dedupeBrandsGo base rest seen
    else
      let key := normKey nh.2
      if key ∈ seen then dedupeBrandsGo base rest seen
      else mkBrand base nh :: dedupeBrandsGo base rest (key :: seen)

/-- Brand extraction from one parsed page. -/
def extractBrands (base : String) (doc : Doc) : List Brand :=
  dedupeBrandsGo base (brandLinks doc) []

/-- `get_brands`: serve the whole brand list from `_brands_cache` on a hit;
otherwise run the candidate loop, return `[]` without caching when the
final `html` value is falsy, and otherwise extract, cache and return the
brand list.  Returns (result, new state, network fetch count). -/
def get_brands (env : String → FetchResult) (parse : String → Doc)
    (base : String) (st : ClientState) : List Brand × ClientState × Nat :=
  match st.brandsCache with
  | some bs => (bs, st, 0)
  | none =>
    match tryPathsGo env base possible_paths none st.pageCache 0 with
    | (htmlOpt, pc', n) =>
      match htmlOpt with
      | none => ([], { st with pageCache := pc' }, n)
      | some h =>
        if h = "" then ([], { st with pageCache := pc' }, n)
        else
          let brands := extractBrands base (parse h)
          (brands, { st with pageCache := pc', brandsCache := some brands }, n)

/-! ## `get_brand_models` -/

/-- The cache-key normalisation shared by `get_brand_models` and
`get_model_details`: ensure one leading slash, strip trailing slashes. -/
def normPathKey (p : String) : String :=
  let normalized := ensureLeadingSlash p
  rstripSlash normalized

/-- Build one model record from one selected element, or skip it: an
anchor contributes its stripped href and text; a container contributes
its first descendant anchor (skipped entirely when there is none), first
image `src` and first price string; entries with a falsy href or name are
discarded; the path gets exactly one leading slash (and keeps any
trailing slash). -/
def modelEntry (base : String) : ModelCard → Option Model
  | ModelCard.anchor href0 text =>
    let href := pystrip href0
    let name := text
    if href = "" ∨ name = "" then none
    else
      let model_path := ensureLeadingSlash href
      some { name := name, path := model_path,
             url := urljoinBase base model_path,
             thumbnail := none, price := none }
  | ModelCard.container link img price =>
    match link with
    | none => none
    | some al =>
      let href := pystrip al.1
      let name := al.2
      let img' := img.map (fun s => pystrip s)
      let price' := price.map (fun s => pystrip s)
      if href = "" ∨ name = "" then none
      else
        let model_path := ensureLeadingSlash href
        some { name := name, path := model_path,
               url := urljoinBase base model_path,
               thumbnail := img', price := price' }

/-- The model records collected in document order, before deduplication. -/
def modelEntries (base : String) (doc : Doc) : List Model :=
  doc.modelCards.filterMap (modelEntry base)

/-- The dedupe of `get_brand_models`: `deduped[m["path"]] = m` over an
insertion-ordered dict, then the dict values — so a later entry with the
same path overwrites an earlier one. -/
def dedupeByPath (ms : List Model) : List Model :=
  (ms.foldl (fun d m => upsert d m.path m) []).map (fun kv => kv.2)

/-- Model extraction from one parsed page. -/
def extractModels (base : String) (doc : Doc) : List Model :=
  dedupeByPath (modelEntries base doc)

/-- `get_brand_models`: normalise the brand path into the cache key, serve
from `_models_cache` on a hit; otherwise fetch the page (an error
propagates unchanged, touching no cache), extract, dedupe, cache and
return.  Returns (result, new state, network fetch count). -/
def get_brand_models (env : String → FetchResult) (parse : String → Doc)
    (base : String) (st : ClientState) (brand_path : String) :
    Except String (List Model) × ClientState × Nat :=
  let cache_key := normPathKey brand_path
  match alookup st.modelsCache cache_key with
  | some ms => (Except.ok ms, st, 0)
  | none =>
    match fetchPage env base st.pageCache cache_key with
    | (Except.error e, pc', n) => (Except.error e, { st with pageCache := pc' }, n)
    | (Except.ok h, pc', n) =>
      let result := extractModels base (parse h)
      (Except.ok result,
       { st with pageCache := pc',
                 modelsCache := (cache_key, result) :: st.modelsCache }, n)

/-! ## `get_model_details` -/

/-- All `<th>` texts of a table, `table.find_all("th")` (header cells occur
inside the table's rows). -/
def tableHeaders (tbl : List (List Cell)) : List String :=
  ((tbl.flatMap id).filter (fun c => c.isTh)).map (fun c => c.text)

/-- The cell texts of one row that the spec scan reads: every cell
(`find_all(["td", "th"])`) for tables with at most one header, only the
`<td>` cells otherwise. -/
def rowCells (useAll : Bool) (row : List Cell) : List String :=
  if useAll then row.map (fun c => c.text)
  else (row.filter (fun c => !c.isTh)).map (fun c => c.text)

/-- Insert one row into the spec dict: exactly-two-cell rows with truthy
key and value are inserted (`specs[key] = value`), everything else is
ignored. -/
def specRow (sp : List (String × String)) (cells : List String) :
    List (String × String) :=
  match cells with
  | [k, v] => if k ≠ "" ∧ v ≠ "" then upsert sp k v else sp
  | _ => sp

/-- Scan one table into the spec dict: with at most one header cell every
two-cell row counts, otherwise only two-`<td>` rows count. -/
def tableSpecs (sp0 : List (String × String)) (tbl : List (List Cell)) :
    List (String × String) :=
  let useAll := decide ((tableHeaders tbl).length ≤ 1)
  tbl.foldl (fun sp row => specRow sp (rowCells useAll row)) sp0

/-- The `(key, value)` pairs one row contributes (zero or one). -/
def rowPairs (useAll : Bool) (row : List Cell) : List (String × String) :=
  match rowCells useAll row with
  | [k, v] => if k ≠ "" ∧ v ≠ "" then [(k, v)] else []
  | _ => []

/-- The `(key, value)` pairs one table contributes, in document order. -/
def tablePairs (tbl : List (List Cell)) : List (String × String) :=
  tbl.flatMap (rowPairs (decide ((tableHeaders tbl).length ≤ 1)))

/-- All accepted spec pairs of a page, in document order. -/
def specPairs (doc : Doc) : List (String × String) :=
  doc.tables.flatMap tablePairs

/-- Detail extraction from one parsed page: title from the first `h1`,
falling back to the document title, falling back to `""`; the spec dict
scanned over all tables; every nonempty image `src`, stripped, truncated
to the first 10. -/
def extractDetails (base cache_key : String) (doc : Doc) : ModelDetail :=
  let title_text :=
    match doc.h1 with
    | some t => t
    | none =>
      match doc.title with
      | some t => t
      | none => ""
  let specs := doc.tables.foldl tableSpecs []
  let images := (doc.imgs.filter (fun s => s ≠ "")).map (fun s => pystrip s)
  { title := title_text, path := cache_key, url := urljoinBase base cache_key,
    specs := specs, images := images.take 10 }

/-- `get_model_details`: normalise the model path into the cache key, serve
from `_details_cache` on a hit; otherwise fetch the page (an error
propagates unchanged, touching no cache), extract, cache and return. -/
def get_model_details (env : String → FetchResult) (parse : String → Doc)
    (base : String) (st : ClientState) (model_path : String) :
    Except String ModelDetail × ClientState × Nat :=
  let cache_key := normPathKey model_path
  match alookup st.detailsCache cache_key with
  | some d => (Except.ok d, st, 0)
  | none =>
    match fetchPage env base st.pageCache cache_key with
    | (Except.error e, pc', n) => (Except.error e, { st with pageCache := pc' }, n)
    | (Except.ok h, pc', n) =>
      let data := extractDetails base cache_key (parse h)
      (Except.ok data,
       { st with pageCache := pc',
                 detailsCache := (cache_key, data) :: st.detailsCache }, n)

/-! ## The wire handlers (`src/main.py`) -/

/-- `api_tg_brand_models`: 503 when the client failed to initialise, 400 on
a missing or empty `path` query parameter, otherwise invoke the client
operation and map its outcome to 200/500.  Returns (HTTP status, whether
the client operation was invoked). -/
def api_tg_brand_models (clientUp : Bool) (pathParam : Option String)
    (call : String → Except String (List Model)) : Nat × Bool :=
  if clientUp = false then (503, false)
  else
    let brand_path := pathParam.getD ""
    if brand_path = "" then (400, false)
    else
      match call brand_path with
      | Except.ok _ => (200, true)
      | Except.error _ => (500, true)

/-- `api_tg_model_details`: same shape as `api_tg_brand_models`. -/
def api_tg_model_details (clientUp : Bool) (pathParam : Option String)
    (call : String → Except String ModelDetail) : Nat × Bool :=
  if clientUp = false then (503, false)
  else
    let model_path := pathParam.getD ""
    if model_path = "" then (400, false)
    else
      match call model_path with
      | Except.ok _ => (200, true)
      | Except.error _ => (500, true)

deriving instance DecidableEq for Except

/-! ## Lemmas: Python string primitives -/

theorem head?_dropWhile_false {p : Char → Bool} :
    ∀ {l : List Char} {a : Char}, (l.dropWhile p).head? = some a → p a = false := by
  intro l
  induction l with
  | nil => intro a h; simp [List.dropWhile] at h
  | cons x xs ih =>
    intro a h
    by_cases hx : p x = true
    · rw [List.dropWhile_cons, if_pos hx] at h
      exact ih h
    · rw [List.dropWhile_cons, if_neg hx] at h
      simp only [List.head?_cons, Option.some.injEq] at h
      subst h
      simpa using hx

/-- `rstrip("/")` leaves no trailing slash. -/
theorem rstripSlash_no_trailing (s : String) :
    endsWithSlash (rstripSlash s) = false := by
  have hdata : (rstripSlash s).data
      = (s.data.reverse.dropWhile (fun c => c == '/')).reverse := rfl
  unfold endsWithSlash
  rw [hdata, List.getLast?_reverse]
  rcases hh : (s.data.reverse.dropWhile (fun c => c == '/')).head? with _ | a
  · simp
  · have hne := head?_dropWhile_false hh
    simp only [beq_eq_false_iff_ne, ne_eq] at hne
    simp [hne]

/-- Prefixing a slash leaves a leading slash. -/
theorem startsWithSlash_ensureLeadingSlash (s : String) :
    startsWithSlash (ensureLeadingSlash s) = true := by
  unfold ensureLeadingSlash
  by_cases h : startsWithSlash s
  · simp [h]
  · simp only [h, if_false]
    simp [startsWithSlash]

/-! ## Lemmas: ordered-dictionary operations -/

theorem alookup_map_repl_self {α : Type} (k : String) (v : α) :
    ∀ (l : List (String × α)), l.any (fun kv => kv.1 == k) = true →
      alookup (l.map (fun kv => if kv.1 = k then (k, v) else kv)) k = some v := by
  intro l
  induction l with
  | nil => intro h; simp at h
  | cons kv rest ih =>
    intro h
    by_cases hk : kv.1 = k
    · simp [alookup, hk]
    · have hr : rest.any (fun x => x.1 == k) = true := by
        simpa [List.any_cons, hk] using h
      have ih' := ih hr
      simp only [List.map_cons, if_neg hk]
      simp [alookup, hk, ih']

theorem alookup_map_repl_ne {α : Type} (k k' : String) (v : α) (h : k ≠ k') :
    ∀ (l : List (String × α)),
      alookup (l.map (fun kv => if kv.1 = k then (k, v) else kv)) k' = alookup l k' := by
  intro l
  induction l with
  | nil => rfl
  | cons kv rest ih =>
    by_cases hk : kv.1 = k
    · have hne : kv.1 ≠ k' := by rw [hk]; exact h
      simp only [List.map_cons, if_pos hk]
      simp [alookup, h, hne, ih]
    · simp only [List.map_cons, if_neg hk]
      simp [alookup, ih]

theorem alookup_append_single_self {α : Type} (k : String) (v : α) :
    ∀ (l : List (String × α)), l.any (fun kv => kv.1 == k) = false →
      alookup (l ++ [(k, v)]) k = some v := by
  intro l
  induction l with
  | nil => intro _; simp [alookup]
  | cons kv rest ih =>
    intro h
    simp only [List.any_cons, Bool.or_eq_false_iff] at h
    have hk : kv.1 ≠ k := by simpa using h.1
    simp [alookup, hk, ih h.2]

theorem alookup_append_single_ne {α : Type} (k k' : String) (v : α) (h : k ≠ k') :
    ∀ (l : List (String × α)), alookup (l ++ [(k, v)]) k' = alookup l k' := by
  intro l
  induction l with
  | nil => simp [alookup, h]
  | cons kv rest ih =>
    by_cases hk : kv.1 = k'
    · simp [alookup, hk]
    · simp [alookup, hk, ih]

theorem alookup_upsert_self {α : Type} (l : List (String × α)) (k : String) (v : α) :
    alookup (upsert l k v) k = some v := by
  unfold upsert
  cases hany : l.any (fun kv => kv.1 == k) with
  | true =>
    rw [if_pos rfl]
    have := alookup_map_repl_self k v l hany
    simpa using this
  | false =>
    rw [if_neg (by simp)]
    exact alookup_append_single_self k v l hany

theorem alookup_upsert_ne {α : Type} (l : List (String × α)) (k k' : String) (v : α)
    (h : k ≠ k') : alookup (upsert l k v) k' = alookup l k' := by
  unfold upsert
  cases hany : l.any (fun kv => kv.1 == k) with
  | true =>
    rw [if_pos rfl]
    have := alookup_map_repl_ne k k' v h l
    simpa using this
  | false =>
    rw [if_neg (by simp)]
    exact alookup_append_single_ne k k' v h l

theorem keys_upsert_of_any {α : Type} (l : List (String × α)) (k : String) (v : α)
    (h : l.any (fun kv => kv.1 == k) = true) :
    (upsert l k v).map (fun kv => kv.1) = l.map (fun kv => kv.1) := by
  unfold upsert
  rw [if_pos h, List.map_map]
  refine List.map_congr_left ?_
  intro kv _
  by_cases hk : kv.1 = k
  · simp [Function.comp, hk]
  · simp [Function.comp, hk]

theorem keys_upsert_of_not_any {α : Type} (l : List (String × α)) (k : String) (v : α)
    (h : l.any (fun kv => kv.1 == k) = false) :
    (upsert l k v).map (fun kv => kv.1) = l.map (fun kv => kv.1) ++ [k] := by
  unfold upsert
  rw [if_neg (by simp [h])]
  simp

theorem nodup_keys_upsert {α : Type} (l : List (String × α)) (k : String) (v : α)
    (h : (l.map (fun kv => kv.1)).Nodup) :
    ((upsert l k v).map (fun kv => kv.1)).Nodup := by
  cases hany : l.any (fun kv => kv.1 == k) with
  | true => rw [keys_upsert_of_any l k v hany]; exact h
  | false =>
    rw [keys_upsert_of_not_any l k v hany]
    rw [List.nodup_append]
    refine ⟨h, List.nodup_singleton k, ?_⟩
    intro a ha hb
    simp only [List.mem_singleton] at hb
    subst hb
    simp only [List.any_eq_false] at hany
    simp only [List.mem_map] at ha
    obtain ⟨kv, hkv, hfst⟩ := ha
    exact hany kv hkv (by simp [hfst])

theorem upsert_forall {α : Type} {P : String × α → Prop} {l : List (String × α)}
    {k : String} {v : α} (hl : ∀ q ∈ l, P q) (hkv : P (k, v)) :
    ∀ p ∈ upsert l k v, P p := by
  intro p hp
  unfold upsert at hp
  cases hany : l.any (fun kv => kv.1 == k) with
  | true =>
    rw [if_pos hany] at hp
    rw [List.mem_map] at hp
    obtain ⟨q, hq, rfl⟩ := hp
    by_cases hk : q.1 = k
    · rw [if_pos (by simpa using hk)]
      exact hkv
    · rw [if_neg (by simpa using hk)]
      exact hl q hq
  | false =>
    rw [if_neg (by simp [hany])] at hp
    rcases List.mem_append.mp hp with hp | hp
    · exact hl p hp
    · rw [List.mem_singleton] at hp
      subst hp
      exact hkv

theorem alookup_of_mem_nodup {α : Type} :
    ∀ (l : List (String × α)), (l.map (fun kv => kv.1)).Nodup →
      ∀ p ∈ l, alookup l p.1 = some p.2 := by
  intro l
  induction l with
  | nil => intro _ p hp; simp at hp
  | cons kv rest ih =>
    intro hnd p hp
    simp only [List.map_cons, List.nodup_cons] at hnd
    rcases List.mem_cons.mp hp with rfl | hmem
    · simp [alookup]
    · have hne : kv.1 ≠ p.1 := fun hx =>
        hnd.1 (hx ▸ List.mem_map.mpr ⟨p, hmem, rfl⟩)
      simp only [alookup]
      rw [if_neg (by simpa using hne)]
      exact ih hnd.2 p hmem

/-! ## Lemmas: folding dict assignment over a list (`d[key x] = val x`) -/

theorem alookup_foldl_upsert {α β : Type} (k : α → String) (v : α → β) :
    ∀ (l : List α) (d0 : List (String × β)) (key : String),
      alookup (l.foldl (fun d x => upsert d (k x) (v x)) d0) key
        = (l.reverse.find? (fun x => k x == key)).elim (alookup d0 key)
            (fun x => some (v x)) := by
  intro l
  induction l with
  | nil => intro d0 key; simp
  | cons x xs ih =>
    intro d0 key
    simp only [List.foldl_cons, List.reverse_cons, List.find?_append]
    rw [ih]
    rcases hf : xs.reverse.find? (fun y => k y == key) with _ | y
    · simp only [Option.none_or]
      by_cases hkx : (k x == key) = true
      · have : k x = key := by simpa using hkx
        subst this
        simp [List.find?, hkx, alookup_upsert_self]
      · have hne : k x ≠ key := by simpa using hkx
        simp only [List.find?, hkx]
        simp [alookup_upsert_ne _ _ _ _ hne]
    · simp [Option.or]

theorem nodup_keys_foldl_upsert {α β : Type} (k : α → String) (v : α → β) :
    ∀ (l : List α) (d0 : List (String × β)),
      (d0.map (fun kv => kv.1)).Nodup →
      ((l.foldl (fun d x => upsert d (k x) (v x)) d0).map (fun kv => kv.1)).Nodup := by
  intro l
  induction l with
  | nil => intro d0 h; exact h
  | cons x xs ih =>
    intro d0 h
    simp only [List.foldl_cons]
    exact ih _ (nodup_keys_upsert _ _ _ h)

theorem mem_foldl_upsert {α β : Type} (k : α → String) (v : α → β) :
    ∀ (l : List α) (d0 : List (String × β)),
      (∀ q ∈ d0, ∃ x, q = (k x, v x)) →
      ∀ p ∈ l.foldl (fun d x => upsert d (k x) (v x)) d0, ∃ x, p = (k x, v x) := by
  intro l
  induction l with
  | nil => intro d0 h; exact h
  | cons x xs ih =>
    intro d0 h
    simp only [List.foldl_cons]
    refine ih _ ?_
    exact upsert_forall h ⟨x, rfl⟩

/-! ## Lemmas: the brand dedupe loop (first occurrence wins) -/

theorem dedupeBrandsGo_mkBrand (base : String) :
    ∀ (links : List (String × String)) (seen : List String),
      ∀ b ∈ dedupeBrandsGo base links seen, ∃ nh, b = mkBrand base nh := by
  intro links
  induction links with
  | nil => intro seen b hb; simp [dedupeBrandsGo] at hb
  | cons nh rest ih =>
    intro seen b hb
    unfold dedupeBrandsGo at hb
    by_cases hj : junkName nh.1 = true
    · rw [if_pos hj] at hb
      exact ih seen b hb
    · rw [if_neg hj] at hb
      by_cases hm : normKey nh.2 ∈ seen
      · rw [if_pos hm] at hb
        exact ih seen b hb
      · rw [if_neg hm] at hb
        rcases List.mem_cons.mp hb with rfl | hb
        · exact ⟨nh, rfl⟩
        · exact ih _ b hb

theorem dedupeBrandsGo_path_not_seen (base : String) :
    ∀ (links : List (String × String)) (seen : List String),
      ∀ b ∈ dedupeBrandsGo base links seen, b.path ∉ seen := by
  intro links
  induction links with
  | nil => intro seen b hb; simp [dedupeBrandsGo] at hb
  | cons nh rest ih =>
    intro seen b hb
    unfold dedupeBrandsGo at hb
    by_cases hj : junkName nh.1 = true
    · rw [if_pos hj] at hb
      exact ih seen b hb
    · rw [if_neg hj] at hb
      by_cases hm : normKey nh.2 ∈ seen
      · rw [if_pos hm] at hb
        exact ih seen b hb
      · rw [if_neg hm] at hb
        rcases List.mem_cons.mp hb with rfl | hb
        · exact hm
        · intro hmem
          exact ih _ b hb (List.mem_cons_of_mem _ hmem)

theorem dedupeBrandsGo_nodup (base : String) :
    ∀ (links : List (String × String)) (seen : List String),
      ((dedupeBrandsGo base links seen).map (fun b => b.path)).Nodup := by
  intro links
  induction links with
  | nil => intro seen; simp [dedupeBrandsGo]
  | cons nh rest ih =>
    intro seen
    unfold dedupeBrandsGo
    by_cases hj : junkName nh.1 = true
    · rw [if_pos hj]; exact ih seen
    · rw [if_neg hj]
      by_cases hm : normKey nh.2 ∈ seen
      · rw [if_pos hm]; exact ih seen
      · rw [if_neg hm]
        simp only [List.map_cons, List.nodup_cons]
        refine ⟨?_, ih _⟩
        intro hmem
        rcases List.mem_map.mp hmem with ⟨b, hb, hpath⟩
        have := dedupeBrandsGo_path_not_seen base rest (normKey nh.2 :: seen) b hb
        exact this (by rw [hpath]; exact List.mem_cons_self _ _)

theorem dedupeBrandsGo_first_wins (base : String) :
    ∀ (links : List (String × String)) (seen : List String),
      ∀ b ∈ dedupeBrandsGo base links seen,
        ∃ nh, (links.filter (fun x => !junkName x.1)).find?
                (fun x => normKey x.2 == b.path) = some nh
              ∧ b = mkBrand base nh := by
  intro links
  induction links with
  | nil => intro seen b hb; simp [dedupeBrandsGo] at hb
  | cons nh rest ih =>
    intro seen b hb
    unfold dedupeBrandsGo at hb
    by_cases hj : junkName nh.1 = true
    · rw [if_pos hj] at hb
      have hfilter : (nh :: rest).filter (fun x => !junkName x.1)
          = rest.filter (fun x => !junkName x.1) := by
        simp [List.filter_cons, hj]
      rw [hfilter]
      exact ih seen b hb
    · rw [if_neg hj] at hb
      have hjb : (junkName nh.1) = false := by
        cases hx : junkName nh.1 with
        | true => exact absurd hx hj
        | false => rfl
      have hfilter : (nh :: rest).filter (fun x => !junkName x.1)
          = nh :: rest.filter (fun x => !junkName x.1) := by
        simp [List.filter_cons, hjb]
      rw [hfilter]
      by_cases hm : normKey nh.2 ∈ seen
      · rw [if_pos hm] at hb
        have hnotseen := dedupeBrandsGo_path_not_seen base rest seen b hb
        have hne : (normKey nh.2 == b.path) = false := by
          cases hx : normKey nh.2 == b.path with
          | true =>
            have : normKey nh.2 = b.path := by simpa using hx
            exact absurd (this ▸ hm) hnotseen
          | false => rfl
        rw [List.find?_cons, hne]
        exact ih seen b hb
      · rw [if_neg hm] at hb
        rcases List.mem_cons.mp hb with rfl | hb
        · refine ⟨nh, ?_, rfl⟩
          rw [List.find?_cons]
          have : (normKey nh.2 == (mkBrand base nh).path) = true := by
            simp [mkBrand]
          rw [this]
        · have hnotseen := dedupeBrandsGo_path_not_seen base rest
            (normKey nh.2 :: seen) b hb
          have hne : (normKey nh.2 == b.path) = false := by
            cases hx : normKey nh.2 == b.path with
            | true =>
              have heq : normKey nh.2 = b.path := by simpa using hx
              exact absurd (heq ▸ List.mem_cons_self _ _) hnotseen
            | false => rfl
          rw [List.find?_cons, hne]
          exact ih _ b hb

/-! ## Lemmas: fetch counting -/

theorem fetchPage_count_le_one (env : String → FetchResult) (base : String)
    (pc : List (String × String)) (u : String) :
    (fetchPage env base pc u).2.2 ≤ 1 := by
  simp only [fetchPage]
  split
  · simp
  · split <;> simp

theorem tryPathsGo_count_le (env : String → FetchResult) (base : String) :
    ∀ (ps : List String) (acc : Option String) (pc : List (String × String)) (n : Nat),
      (tryPathsGo env base ps acc pc n).2.2 ≤ n + ps.length := by
  intro ps
  induction ps with
  | nil => intro acc pc n; simp [tryPathsGo]
  | cons p ps ih =>
    intro acc pc n
    simp only [tryPathsGo]
    split
    · rename_i h pc' kk heq
      have hk : kk ≤ 1 := by
        have := fetchPage_count_le_one env base pc p
        rw [heq] at this
        exact this
      by_cases hbrk : h ≠ "" ∧ 500 < h.length
      · rw [if_pos hbrk]
        simp only [List.length_cons]
        omega
      · rw [if_neg hbrk]
        have := ih (some h) pc' (n + kk)
        simp only [List.length_cons]
        omega
    · rename_i e pc' kk heq
      have hk : kk ≤ 1 := by
        have := fetchPage_count_le_one env base pc p
        rw [heq] at this
        exact this
      have := ih acc pc' (n + kk)
      simp only [List.length_cons]
      omega

/-! ## Lemmas: `_fetch` behaviour -/

theorem fetchPage_hit {env : String → FetchResult} {base : String}
    {pc : List (String × String)} {u h : String}
    (hpc : alookup pc (resolveUrl base u) = some h) :
    fetchPage env base pc u = (Except.ok h, pc, 0) := by
  simp only [fetchPage, hpc]

theorem fetchPage_miss_ok {env : String → FetchResult} {base : String}
    {pc : List (String × String)} {u h : String}
    (hpc : alookup pc (resolveUrl base u) = none)
    (henv : env (resolveUrl base u) = Except.ok h) :
    fetchPage env base pc u = (Except.ok h, (resolveUrl base u, h) :: pc, 1) := by
  simp only [fetchPage, hpc, henv]

theorem fetchPage_miss_error {env : String → FetchResult} {base : String}
    {pc : List (String × String)} {u e : String}
    (hpc : alookup pc (resolveUrl base u) = none)
    (henv : env (resolveUrl base u) = Except.error e) :
    fetchPage env base pc u = (Except.error e, pc, 1) := by
  simp only [fetchPage, hpc, henv]

theorem fetchPage_ok_inv {env : String → FetchResult} {base : String}
    {pc pc' : List (String × String)} {u h : String} {kk : Nat}
    (heq : fetchPage env base pc u = (Except.ok h, pc', kk)) :
    (alookup pc (resolveUrl base u) = some h ∧ pc' = pc) ∨
    (alookup pc (resolveUrl base u) = none ∧ env (resolveUrl base u) = Except.ok h ∧
     pc' = (resolveUrl base u, h) :: pc) := by
  simp only [fetchPage] at heq
  split at heq
  · rename_i html hpc
    left
    obtain ⟨h1, h2, -⟩ := Prod.mk.injEq .. ▸ heq
    have hh : html = h := by
      injection h1
    subst hh
    injection heq with e1 e2
    injection e2 with e3 e4
    exact ⟨hpc, e3.symm⟩
  · rename_i hpc
    split at heq
    · rename_i html henv
      right
      injection heq with e1 e2
      injection e2 with e3 e4
      have hh : html = h := by injection e1
      subst hh
      exact ⟨hpc, henv, e3.symm⟩
    · rename_i e henv
      injection heq with e1 e2
      exact absurd e1 (by simp)

theorem fetchPage_error_inv {env : String → FetchResult} {base : String}
    {pc pc' : List (String × String)} {u e : String} {kk : Nat}
    (heq : fetchPage env base pc u = (Except.error e, pc', kk)) :
    alookup pc (resolveUrl base u) = none ∧
    env (resolveUrl base u) = Except.error e ∧ pc' = pc ∧ kk = 1 := by
  simp only [fetchPage] at heq
  split at heq
  · rename_i html hpc
    injection heq with e1 e2
    exact absurd e1 (by simp)
  · rename_i hpc
    split at heq
    · rename_i html henv
      injection heq with e1 e2
      exact absurd e1 (by simp)
    · rename_i e0 henv
      injection heq with e1 e2
      injection e2 with e3 e4
      have he : e0 = e := by injection e1
      subst he
      exact ⟨hpc, henv, e3.symm, e4.symm⟩

/-! ## Lemmas: the candidate loop when nothing usable is available -/

/-- One fetch outcome that yields no usable markup: an exception, or a page
whose markup is the empty string. -/
def errorOrEmpty (r : FetchResult) : Bool :=
  match r with
  | Except.error _ => true
  | Except.ok h => decide (h = "")

theorem tryPathsGo_all_empty (env : String → FetchResult) (base : String) :
    ∀ (ps : List String) (acc : Option String) (pc : List (String × String)) (n : Nat),
      (acc = none ∨ acc = some "") →
      (∀ url h, alookup pc url = some h → h = "") →
      (∀ p ∈ ps, errorOrEmpty (env (resolveUrl base p)) = true) →
      (tryPathsGo env base ps acc pc n).1 = none ∨
      (tryPathsGo env base ps acc pc n).1 = some "" := by
  intro ps
  induction ps with
  | nil =>
    intro acc pc n hacc _ _
    simpa [tryPathsGo] using hacc
  | cons p rest ih =>
    intro acc pc n hacc hpc hps
    simp only [tryPathsGo]
    split
    · rename_i h pc' kk heq
      have hh : h = "" := by
        rcases fetchPage_ok_inv heq with ⟨hl, -⟩ | ⟨-, henv, -⟩
        · exact hpc _ _ hl
        · have := hps p (List.mem_cons_self _ _)
          rw [henv] at this
          simpa [errorOrEmpty] using this
      subst hh
      rw [if_neg (by intro hx; exact hx.1 rfl)]
      refine ih (some "") pc' (n + kk) (Or.inr rfl) ?_ ?_
      · rcases fetchPage_ok_inv heq with ⟨-, rfl⟩ | ⟨-, -, rfl⟩
        · exact hpc
        · intro url h hx
          simp only [alookup] at hx
          by_cases hu : resolveUrl base p = url
          · rw [if_pos (by simpa using hu)] at hx
            injection hx with hx
            exact hx.symm
          · rw [if_neg (by simpa using hu)] at hx
            exact hpc url h hx
      · intro q hq
        exact hps q (List.mem_cons_of_mem _ hq)
    · rename_i e pc' kk heq
      obtain ⟨-, -, hpc', -⟩ := fetchPage_error_inv heq
      rw [hpc']
      refine ih acc pc (n + kk) hacc hpc ?_
      intro q hq
      exact hps q (List.mem_cons_of_mem _ hq)

/-! ## Lemmas: specialised dict folds -/

theorem alookup_foldl_upsert_pairs (l : List (String × String))
    (d0 : List (String × String)) (key : String) :
    alookup (l.foldl (fun d kv => upsert d kv.1 kv.2) d0) key
      = (l.reverse.find? (fun kv => kv.1 == key)).elim (alookup d0 key)
          (fun kv => some kv.2) :=
  alookup_foldl_upsert (fun kv => kv.1) (fun kv => kv.2) l d0 key

theorem alookup_foldl_upsert_models (l : List Model)
    (d0 : List (String × Model)) (key : String) :
    alookup (l.foldl (fun d m => upsert d m.path m) d0) key
      = (l.reverse.find? (fun m => m.path == key)).elim (alookup d0 key) some :=
  alookup_foldl_upsert (fun m => m.path) (fun m => m) l d0 key

theorem nodup_keys_foldl_upsert_models (l : List Model) (d0 : List (String × Model))
    (h : (d0.map (fun kv => kv.1)).Nodup) :
    ((l.foldl (fun d m => upsert d m.path m) d0).map (fun kv => kv.1)).Nodup :=
  nodup_keys_foldl_upsert (fun m => m.path) (fun m => m) l d0 h

theorem mem_foldl_upsert_models (l : List Model) (d0 : List (String × Model))
    (h : ∀ q ∈ d0, ∃ x, q = (x.path, x)) :
    ∀ p ∈ l.foldl (fun d m => upsert d m.path m) d0, ∃ x, p = (x.path, x) :=
  mem_foldl_upsert (fun m => m.path) (fun m => m) l d0 h

/-! ## Lemmas: the model dedupe (last occurrence wins) -/

theorem extractModels_nodup (base : String) (doc : Doc) :
    ((extractModels base doc).map (fun m => m.path)).Nodup := by
  have hpairs := mem_foldl_upsert_models (modelEntries base doc) []
    (by intro q hq; simp at hq)
  have hkeys := nodup_keys_foldl_upsert_models (modelEntries base doc) [] (by simp)
  unfold extractModels dedupeByPath
  rw [List.map_map]
  have heq : ((modelEntries base doc).foldl (fun d m => upsert d m.path m) []).map
      ((fun m => m.path) ∘ (fun kv => kv.2))
      = ((modelEntries base doc).foldl (fun d m => upsert d m.path m) []).map
          (fun kv => kv.1) := by
    refine List.map_congr_left ?_
    intro p hp
    obtain ⟨x, rfl⟩ := hpairs p hp
    rfl
  rw [heq]
  exact hkeys

theorem extractModels_last_wins (base : String) (doc : Doc) :
    ∀ m ∈ extractModels base doc,
      (modelEntries base doc).reverse.find? (fun x => x.path == m.path) = some m := by
  intro m hm
  unfold extractModels dedupeByPath at hm
  rw [List.mem_map] at hm
  obtain ⟨p, hp, rfl⟩ := hm
  obtain ⟨x, rfl⟩ := mem_foldl_upsert_models (modelEntries base doc) []
    (by intro q hq; simp at hq) p hp
  have hkeys := nodup_keys_foldl_upsert_models (modelEntries base doc) [] (by simp)
  have hlook := alookup_of_mem_nodup _ hkeys _ hp
  have hchar := alookup_foldl_upsert_models (modelEntries base doc) [] x.path
  rw [hlook] at hchar
  rcases hf : (modelEntries base doc).reverse.find? (fun y => y.path == x.path) with _ | y
  · rw [hf] at hchar
    simp [alookup] at hchar
  · rw [hf] at hchar
    simp only [Option.elim_some] at hchar
    rw [hf]
    injection hchar with hc
    rw [hc]

/-! ## Lemmas: the spec-table scan as one dict fold -/

theorem specRow_foldl (sp : List (String × String)) (u : Bool) (row : List Cell) :
    specRow sp (rowCells u row)
      = (rowPairs u row).foldl (fun d kv => upsert d kv.1 kv.2) sp := by
  unfold specRow rowPairs
  rcases hc : rowCells u row with _ | ⟨k, _ | ⟨v, _ | ⟨c, t⟩⟩⟩
  · rfl
  · rfl
  · dsimp only
    by_cases hkv : k ≠ "" ∧ v ≠ ""
    · rw [if_pos hkv, if_pos hkv]
      rfl
    · rw [if_neg hkv, if_neg hkv]
      rfl
  · rfl

theorem tableSpecs_foldl (tbl : List (List Cell)) :
    ∀ sp0, tableSpecs sp0 tbl
      = (tablePairs tbl).foldl (fun d kv => upsert d kv.1 kv.2) sp0 := by
  simp only [tableSpecs, tablePairs]
  generalize (decide ((tableHeaders tbl).length ≤ 1)) = u
  induction tbl with
  | nil => intro sp0; rfl
  | cons row rest ih =>
    intro sp0
    simp only [List.foldl_cons, List.flatMap_cons, List.foldl_append]
    rw [specRow_foldl]
    exact ih _

theorem specs_eq_foldl_pairs (doc : Doc) :
    doc.tables.foldl tableSpecs []
      = (specPairs doc).foldl (fun d kv => upsert d kv.1 kv.2) [] := by
  suffices hgen : ∀ (tables : List (List (List Cell))) (sp0 : List (String × String)),
      tables.foldl tableSpecs sp0
        = (tables.flatMap tablePairs).foldl (fun d kv => upsert d kv.1 kv.2) sp0 by
    exact hgen doc.tables []
  intro tables
  induction tables with
  | nil => intro sp0; rfl
  | cons tbl rest ih =>
    intro sp0
    simp only [List.foldl_cons, List.flatMap_cons, List.foldl_append]
    rw [tableSpecs_foldl]
    exact ih _

/-! ## Lemmas: the three operations, by cache outcome -/

theorem get_brands_hit {env : String → FetchResult} {parse : String → Doc}
    {base : String} {st : ClientState} {bs : List Brand}
    (hbc : st.brandsCache = some bs) :
    get_brands env parse base st = (bs, st, 0) := by
  simp [get_brands, hbc]

theorem get_brands_miss_none {env : String → FetchResult} {parse : String → Doc}
    {base : String} {st : ClientState} {pc' : List (String × String)} {n : Nat}
    (hbc : st.brandsCache = none)
    (htp : tryPathsGo env base possible_paths none st.pageCache 0 = (none, pc', n)) :
    get_brands env parse base st = ([], { st with pageCache := pc' }, n) := by
  simp [get_brands, hbc, htp]

theorem get_brands_miss_empty {env : String → FetchResult} {parse : String → Doc}
    {base : String} {st : ClientState} {pc' : List (String × String)} {n : Nat}
    (hbc : st.brandsCache = none)
    (htp : tryPathsGo env base possible_paths none st.pageCache 0 = (some "", pc', n)) :
    get_brands env parse base st = ([], { st with pageCache := pc' }, n) := by
  simp [get_brands, hbc, htp]

theorem get_brands_miss_markup {env : String → FetchResult} {parse : String → Doc}
    {base : String} {st : ClientState} {h : String} {pc' : List (String × String)} {n : Nat}
    (hbc : st.brandsCache = none)
    (htp : tryPathsGo env base possible_paths none st.pageCache 0 = (some h, pc', n))
    (hne : h ≠ "") :
    get_brands env parse base st
      = (extractBrands base (parse h),
         { st with pageCache := pc',
                   brandsCache := some (extractBrands base (parse h)) }, n) := by
  simp [get_brands, hbc, htp, hne]

theorem get_brand_models_hit {env : String → FetchResult} {parse : String → Doc}
    {base : String} {st : ClientState} {p : String} {ms : List Model}
    (hmc : alookup st.modelsCache (normPathKey p) = some ms) :
    get_brand_models env parse base st p = (Except.ok ms, st, 0) := by
  simp [get_brand_models, hmc]

theorem get_brand_models_miss_ok {env : String → FetchResult} {parse : String → Doc}
    {base : String} {st : ClientState} {p h : String}
    {pc' : List (String × String)} {n : Nat}
    (hmc : alookup st.modelsCache (normPathKey p) = none)
    (hfp : fetchPage env base st.pageCache (normPathKey p) = (Except.ok h, pc', n)) :
    get_brand_models env parse base st p
      = (Except.ok (extractModels base (parse h)),
         { st with pageCache := pc',
                   modelsCache := (normPathKey p, extractModels base (parse h))
                     :: st.modelsCache }, n) := by
  simp [get_brand_models, hmc, hfp]

theorem get_brand_models_miss_error {env : String → FetchResult} {parse : String → Doc}
    {base : String} {st : ClientState} {p e : String}
    {pc' : List (String × String)} {n : Nat}
    (hmc : alookup st.modelsCache (normPathKey p) = none)
    (hfp : fetchPage env base st.pageCache (normPathKey p) = (Except.error e, pc', n)) :
    get_brand_models env parse base st p
      = (Except.error e, { st with pageCache := pc' }, n) := by
  simp [get_brand_models, hmc, hfp]

theorem get_model_details_hit {env : String → FetchResult} {parse : String → Doc}
    {base : String} {st : ClientState} {q : String} {d : ModelDetail}
    (hdc : alookup st.detailsCache (normPathKey q) = some d) :
    get_model_details env parse base st q = (Except.ok d, st, 0) := by
  simp [get_model_details, hdc]

theorem get_model_details_miss_ok {env : String → FetchResult} {parse : String → Doc}
    {base : String} {st : ClientState} {q h : String}
    {pc' : List (String × String)} {n : Nat}
    (hdc : alookup st.detailsCache (normPathKey q) = none)
    (hfp : fetchPage env base st.pageCache (normPathKey q) = (Except.ok h, pc', n)) :
    get_model_details env parse base st q
      = (Except.ok (extractDetails base (normPathKey q) (parse h)),
         { st with pageCache := pc',
                   detailsCache := (normPathKey q, extractDetails base (normPathKey q) (parse h))
                     :: st.detailsCache }, n) := by
  simp [get_model_details, hdc, hfp]

theorem get_model_details_miss_error {env : String → FetchResult} {parse : String → Doc}
    {base : String} {st : ClientState} {q e : String}
    {pc' : List (String × String)} {n : Nat}
    (hdc : alookup st.detailsCache (normPathKey q) = none)
    (hfp : fetchPage env base st.pageCache (normPathKey q) = (Except.error e, pc', n)) :
    get_model_details env parse base st q
      = (Except.error e, { st with pageCache := pc' }, n) := by
  simp [get_model_details, hdc, hfp]

/-! ## Concrete fixtures for the witnesses and counterexamples -/

/-- The default base origin of the client. -/
def cbase : String := "https://tractorguru.in"

/-- A parser that finds nothing on any page. -/
def cparse0 : String → Doc := fun _ => Doc.empty

/-- A network that refuses every connection. -/
def cenvErr : String → FetchResult := fun _ => Except.error "connection refused"

/-- A network that answers every GET with status 200 and an empty body. -/
def cenvEmpty : String → FetchResult := fun _ => Except.ok ""

/-- A brand-listing page far below the 500-character threshold that still
contains one brand anchor. -/
def shortHtml : String := "<a href=/brand/mahindra>Mahindra</a>"

/-- The parse of `shortHtml`: one anchor matching the brand pattern. -/
def shortDoc : Doc := { Doc.empty with anchors := [⟨"/brand/mahindra/", "Mahindra"⟩] }

/-- A network where the first two candidate brand paths 404 and the third
returns the undersized `shortHtml`. -/
def cenvShort : String → FetchResult := fun url =>
  if url == "https://tractorguru.in/tractor/brands" then Except.ok shortHtml
  else Except.error "404"

/-- A parser mapping `shortHtml` to its parse and anything else to nothing. -/
def cparseShort : String → Doc := fun s => if s == shortHtml then shortDoc else Doc.empty

/-- A brand page where a model anchor href carries a trailing slash. -/
def modelsDocC2 : Doc :=
  { Doc.empty with modelCards := [ModelCard.anchor "/tractor/x/" "X"] }

/-- A network that always answers with the one-character page `"m"`. -/
def cenvOkM : String → FetchResult := fun _ => Except.ok "m"

/-- A parser that reads every page as `modelsDocC2`. -/
def cparseC2 : String → Doc := fun _ => modelsDocC2

/-- Two anchors that normalise to the same brand path, in document order. -/
def brandsDocC6 : Doc :=
  { Doc.empty with anchors := [⟨"/brand/x", "Alpha"⟩, ⟨"/brand/x/", "Beta"⟩] }

/-- Two model cards with the same path, in document order. -/
def modelsDocC7 : Doc :=
  { Doc.empty with modelCards :=
      [ModelCard.anchor "/tractor/m1" "First", ModelCard.anchor "/tractor/m1" "Second"] }

/-- A detail page with one headerless two-column table holding two rows
that share the key `"Engine"`. -/
def engineDoc : Doc :=
  { Doc.empty with tables :=
      [[[⟨false, "Engine"⟩, ⟨false, "45HP"⟩], [⟨false, "Engine"⟩, ⟨false, "50HP"⟩]]] }

/-- One candidate-path fetch outcome as the claim describes it: the fetch
raises, or it returns markup of at most 500 characters. -/
def raisesOrUndersized (r : FetchResult) : Bool :=
  match r with
  | Except.error _ => true
  | Except.ok h => decide (h.length ≤ 500)

/-- The model record extracted from `modelsDocC2`. -/
def modelX : Model :=
  { name := "X", path := "/tractor/x/", url := "https://tractorguru.in/tractor/x/",
    thumbnail := none, price := none }

/-- The client state after one `get_brand_models` miss against `cenvOkM`. -/
def stAfterModels : ClientState :=
  { pageCache := [("https://tractorguru.in/b", "m")], brandsCache := none,
    modelsCache := [("/b", [modelX])], detailsCache := [] }

/-- The brand record kept from `brandsDocC6` (the first occurrence). -/
def brandAlpha : Brand := mkBrand cbase ("Alpha", "/brand/x")

/-- The model record kept from `modelsDocC7` (the last occurrence). -/
def modelSecond : Model :=
  { name := "Second", path := "/tractor/m1", url := "https://tractorguru.in/tractor/m1",
    thumbnail := none, price := none }

/-! ## Claims -/

/-- C1 (amended): `get_brands` is total (it returns a plain list, never an
exception), and it returns the empty sequence whenever every candidate
listing fetch raises or yields empty markup and no nonempty page is
already cached for any URL.  (The claim as stated — empty result whenever
every candidate raises or returns markup of at most 500 characters — is
refuted by `get_brands_undersized_markup_can_yield_brands`: nonempty
markup of at most 500 characters obtained by the last assignment in the
candidate loop IS fed to extraction.) -/
theorem get_brands_empty_when_no_usable_markup
    (env : String → FetchResult) (parse : String → Doc) (base : String)
    (st : ClientState)
    (h1 : st.brandsCache = none)
    (h2 : ∀ url h, alookup st.pageCache url = some h → h = "")
    (h3 : ∀ p ∈ possible_paths, errorOrEmpty (env (resolveUrl base p)) = true) :
    (get_brands env parse base st).1 = [] := by
  have hopt := tryPathsGo_all_empty env base possible_paths none st.pageCache 0
    (Or.inl rfl) h2 h3
  rcases htp : tryPathsGo env base possible_paths none st.pageCache 0 with ⟨ho, pc', n⟩
  rw [htp] at hopt
  cases ho with
  | none => rw [get_brands_miss_none h1 htp]
  | some s =>
    have hs : s = "" := by
      rcases hopt with hx | hx
      · exact absurd hx (by simp)
      · simpa using hx
    subst hs
    rw [get_brands_miss_empty h1 htp]

/-- Witness for C1: with a network that refuses every connection and a
fresh client, `get_brands` returns the empty list. -/
theorem get_brands_empty_when_no_usable_markup_inst :
    (get_brands cenvErr cparse0 cbase ClientState.empty).1 = [] :=
  get_brands_empty_when_no_usable_markup cenvErr cparse0 cbase ClientState.empty rfl
    (by intro url h hx; simp [ClientState.empty, alookup] at hx)
    (by decide)

/-- Counterexample to C1 as stated: every candidate path either raises or
returns markup of at most 500 characters, yet `get_brands` returns a
nonempty brand list — extraction runs on the undersized markup kept by
the loop. -/
theorem get_brands_undersized_markup_can_yield_brands :
    (∀ p ∈ possible_paths, raisesOrUndersized (cenvShort (resolveUrl cbase p)) = true) ∧
    (get_brands cenvShort cparseShort cbase ClientState.empty).1
      = [{ name := "Mahindra", path := "/brand/mahindra",
           url := "https://tractorguru.in/brand/mahindra" }] ∧
    (get_brands cenvShort cparseShort cbase ClientState.empty).1 ≠ [] :=
  ⟨by decide, by decide, by decide⟩

/-- C2 (amended): brand dedupe keys never carry a trailing slash (though a
key from an absolute `http` href need not start with `/`); model dedupe
keys (the `path` field) always start with `/` but KEEP any trailing slash
(refuted normalisation, see `model_path_keeps_trailing_slash`); and the
models/details cache keys never carry a trailing slash. -/
theorem path_key_normalization_actual (base : String) (doc : Doc) (p : String) :
    (∀ b ∈ extractBrands base doc, endsWithSlash b.path = false) ∧
    (∀ m ∈ extractModels base doc, startsWithSlash m.path = true) ∧
    endsWithSlash (normPathKey p) = false := by
  refine ⟨?_, ?_, rstripSlash_no_trailing _⟩
  · intro b hb
    obtain ⟨nh, rfl⟩ := dedupeBrandsGo_mkBrand base (brandLinks doc) [] b hb
    exact rstripSlash_no_trailing _
  · intro m hm
    have hf := extractModels_last_wins base doc m hm
    have hmem := List.mem_of_find?_eq_some hf
    rw [List.mem_reverse] at hmem
    obtain ⟨card, hcard, hentry⟩ := List.mem_filterMap.mp hmem
    cases card with
    | anchor href0 text =>
      simp only [modelEntry] at hentry
      split at hentry
      · exact absurd hentry (by simp)
      · injection hentry with he
        rw [← he]
        exact startsWithSlash_ensureLeadingSlash _
    | container link img price =>
      rcases link with _ | al
      · exact absurd hentry (by simp [modelEntry])
      · simp only [modelEntry] at hentry
        split at hentry
        · exact absurd hentry (by simp)
        · injection hentry with he
          rw [← he]
          exact startsWithSlash_ensureLeadingSlash _

/-- Witness for C2 (amended): the model path `"/tractor/x/"` extracted from
`modelsDocC2` starts with a slash. -/
theorem path_key_normalization_actual_inst :
    startsWithSlash modelX.path = true :=
  (path_key_normalization_actual cbase modelsDocC2 "/b").2.1 modelX (by decide)

/-- Counterexample to C2 as stated: for the href `"/tractor/x/"` the dedupe
key used by `get_brand_models` (the `path` value) ends with `/` — trailing
slashes are not stripped from model paths. -/
theorem model_path_keeps_trailing_slash :
    (get_brand_models cenvOkM cparseC2 cbase ClientState.empty "/b").1
      = Except.ok [modelX] ∧
    modelX.path = "/tractor/x/" ∧
    endsWithSlash "/tractor/x/" = true :=
  ⟨by decide, by decide, by decide⟩

/-- C3 (amended): `get_brand_models` and `get_model_details` perform at
most one network fetch per call — zero on a cache hit, exactly one on a
fresh cache — but `get_brands` performs up to THREE fetches on a
brands-cache miss (one per candidate listing path), not at most one
(see `get_brands_three_fetches`). -/
theorem fetch_count_bounds (env : String → FetchResult) (parse : String → Doc)
    (base : String) (st : ClientState) (p q : String) :
    (get_brand_models env parse base st p).2.2 ≤ 1 ∧
    (get_model_details env parse base st q).2.2 ≤ 1 ∧
    (get_brands env parse base st).2.2 ≤ 3 ∧
    (alookup st.modelsCache (normPathKey p) ≠ none →
      (get_brand_models env parse base st p).2.2 = 0) ∧
    (alookup st.detailsCache (normPathKey q) ≠ none →
      (get_model_details env parse base st q).2.2 = 0) ∧
    (st.brandsCache ≠ none → (get_brands env parse base st).2.2 = 0) ∧
    (get_brand_models env parse base ClientState.empty p).2.2 = 1 ∧
    (get_model_details env parse base ClientState.empty q).2.2 = 1 := by
  refine ⟨?_, ?_, ?_, ?_, ?_, ?_, ?_, ?_⟩
  · cases hmc : alookup st.modelsCache (normPathKey p) with
    | some ms => rw [get_brand_models_hit hmc]; simp
    | none =>
      rcases hfp : fetchPage env base st.pageCache (normPathKey p) with ⟨r, pc', kk⟩
      have hk : kk ≤ 1 := by
        have := fetchPage_count_le_one env base st.pageCache (normPathKey p)
        rw [hfp] at this
        exact this
      cases r with
      | ok h => rw [get_brand_models_miss_ok hmc hfp]; exact hk
      | error e => rw [get_brand_models_miss_error hmc hfp]; exact hk
  · cases hdc : alookup st.detailsCache (normPathKey q) with
    | some d => rw [get_model_details_hit hdc]; simp
    | none =>
      rcases hfp : fetchPage env base st.pageCache (normPathKey q) with ⟨r, pc', kk⟩
      have hk : kk ≤ 1 := by
        have := fetchPage_count_le_one env base st.pageCache (normPathKey q)
        rw [hfp] at this
        exact this
      cases r with
      | ok h => rw [get_model_details_miss_ok hdc hfp]; exact hk
      | error e => rw [get_model_details_miss_error hdc hfp]; exact hk
  · cases hbc : st.brandsCache with
    | some bs => rw [get_brands_hit hbc]; simp
    | none =>
      rcases htp : tryPathsGo env base possible_paths none st.pageCache 0 with ⟨ho, pc', n⟩
      have hn : n ≤ 3 := by
        have := tryPathsGo_count_le env base possible_paths none st.pageCache 0
        rw [htp] at this
        simpa [possible_paths] using this
      cases ho with
      | none => rw [get_brands_miss_none hbc htp]; exact hn
      | some s =>
        by_cases hs : s = ""
        · subst hs
          rw [get_brands_miss_empty hbc htp]
          exact hn
        · rw [get_brands_miss_markup hbc htp hs]
          exact hn
  · intro hne
    cases hmc : alookup st.modelsCache (normPathKey p) with
    | some ms => rw [get_brand_models_hit hmc]
    | none => exact absurd hmc hne
  · intro hne
    cases hdc : alookup st.detailsCache (normPathKey q) with
    | some d => rw [get_model_details_hit hdc]
    | none => exact absurd hdc hne
  · intro hne
    cases hbc : st.brandsCache with
    | some bs => rw [get_brands_hit hbc]
    | none => exact absurd hbc hne
  · have hmc : alookup ClientState.empty.modelsCache (normPathKey p) = none := rfl
    have hpc : alookup ClientState.empty.pageCache (resolveUrl base (normPathKey p)) = none := rfl
    cases henv : env (resolveUrl base (normPathKey p)) with
    | ok h => rw [get_brand_models_miss_ok hmc (fetchPage_miss_ok hpc henv)]
    | error e => rw [get_brand_models_miss_error hmc (fetchPage_miss_error hpc henv)]
  · have hdc : alookup ClientState.empty.detailsCache (normPathKey q) = none := rfl
    have hpc : alookup ClientState.empty.pageCache (resolveUrl base (normPathKey q)) = none := rfl
    cases henv : env (resolveUrl base (normPathKey q)) with
    | ok h => rw [get_model_details_miss_ok hdc (fetchPage_miss_ok hpc henv)]
    | error e => rw [get_model_details_miss_error hdc (fetchPage_miss_error hpc henv)]

/-- Witness for C3: a client whose brands cache is populated performs zero
fetches, and a fresh client performs exactly one fetch in
`get_brand_models`. -/
theorem fetch_count_bounds_inst :
    (get_brands cenvErr cparse0 cbase
      { pageCache := [], brandsCache := some [], modelsCache := [],
        detailsCache := [] }).2.2 = 0 ∧
    (get_brand_models cenvErr cparse0 cbase ClientState.empty "/b").2.2 = 1 :=
  ⟨(fetch_count_bounds cenvErr cparse0 cbase
      { pageCache := [], brandsCache := some [], modelsCache := [],
        detailsCache := [] } "/b" "/m").2.2.2.2.2.1 (by decide),
   (fetch_count_bounds cenvErr cparse0 cbase ClientState.empty "/b" "/m").2.2.2.2.2.2.1⟩

/-- Counterexample to C3 as stated: on a fresh cache with the first two
candidate paths failing, one `get_brands` call performs three network
fetches, not at most one. -/
theorem get_brands_three_fetches :
    (get_brands cenvShort cparseShort cbase ClientState.empty).2.2 = 3 ∧
    ¬((get_brands cenvShort cparseShort cbase ClientState.empty).2.2 ≤ 1) :=
  ⟨by decide, by decide⟩

/-- C4 (amended): second-call cache idempotence holds for
`get_brand_models` and `get_model_details` — when a call returns
successfully, repeating it on the resulting state returns the identical
result with zero network fetches — and for `get_brands` whenever the
first call left the brand list cached (which is the case exactly when
markup was obtained).  When `get_brands` obtains no markup, nothing is
cached and a repeat call re-runs the whole candidate loop (see
`get_brands_refetches_after_total_failure`). -/
theorem second_call_cache_idempotence (env : String → FetchResult)
    (parse : String → Doc) (base : String) (st : ClientState) (p q : String) :
    (∀ ms st1 n, get_brand_models env parse base st p = (Except.ok ms, st1, n) →
        get_brand_models env parse base st1 p = (Except.ok ms, st1, 0)) ∧
    (∀ d st1 n, get_model_details env parse base st q = (Except.ok d, st1, n) →
        get_model_details env parse base st1 q = (Except.ok d, st1, 0)) ∧
    (∀ bs st1 n, get_brands env parse base st = (bs, st1, n) →
        st1.brandsCache = some bs →
        get_brands env parse base st1 = (bs, st1, 0)) := by
  refine ⟨?_, ?_, ?_⟩
  · intro ms st1 n h
    cases hmc : alookup st.modelsCache (normPathKey p) with
    | some ms0 =>
      rw [get_brand_models_hit hmc] at h
      injection h with h1 h2
      injection h2 with h2 h3
      have hms : ms0 = ms := by injection h1
      subst hms
      subst h2
      exact get_brand_models_hit hmc
    | none =>
      rcases hfp : fetchPage env base st.pageCache (normPathKey p) with ⟨r, pc', kk⟩
      cases r with
      | error e =>
        rw [get_brand_models_miss_error hmc hfp] at h
        injection h with h1 h2
        exact absurd h1 (by simp)
      | ok hh =>
        rw [get_brand_models_miss_ok hmc hfp] at h
        injection h with h1 h2
        injection h2 with h2 h3
        have hms : extractModels base (parse hh) = ms := by injection h1
        subst h2
        refine get_brand_models_hit ?_
        show alookup ((normPathKey p, extractModels base (parse hh))
          :: st.modelsCache) (normPathKey p) = some ms
        rw [← hms]
        simp [alookup]
  · intro d st1 n h
    cases hdc : alookup st.detailsCache (normPathKey q) with
    | some d0 =>
      rw [get_model_details_hit hdc] at h
      injection h with h1 h2
      injection h2 with h2 h3
      have hd : d0 = d := by injection h1
      subst hd
      subst h2
      exact get_model_details_hit hdc
    | none =>
      rcases hfp : fetchPage env base st.pageCache (normPathKey q) with ⟨r, pc', kk⟩
      cases r with
      | error e =>
        rw [get_model_details_miss_error hdc hfp] at h
        injection h with h1 h2
        exact absurd h1 (by simp)
      | ok hh =>
        rw [get_model_details_miss_ok hdc hfp] at h
        injection h with h1 h2
        injection h2 with h2 h3
        have hd : extractDetails base (normPathKey q) (parse hh) = d := by injection h1
        subst h2
        refine get_model_details_hit ?_
        show alookup ((normPathKey q, extractDetails base (normPathKey q) (parse hh))
          :: st.detailsCache) (normPathKey q) = some d
        rw [← hd]
        simp [alookup]
  · intro bs st1 n h hbc1
    exact get_brands_hit hbc1

/-- Witness for C4: after one successful `get_brand_models` miss, the
repeat call serves the identical result from the models cache with zero
fetches. -/
theorem second_call_cache_idempotence_inst :
    get_brand_models cenvOkM cparseC2 cbase stAfterModels "/b"
      = (Except.ok [modelX], stAfterModels, 0) :=
  (second_call_cache_idempotence cenvOkM cparseC2 cbase ClientState.empty "/b" "/m").1
    [modelX] stAfterModels 1 (by decide)

/-- Counterexample to C4 as stated: when every candidate brand fetch
raises, the first `get_brands` call returns `[]` performing three
fetches, caches nothing, and the second call performs three network
fetches again — not zero (the returned result is identical, but the
zero-additional-fetches clause fails). -/
theorem get_brands_refetches_after_total_failure :
    get_brands cenvErr cparse0 cbase ClientState.empty = ([], ClientState.empty, 3) ∧
    (get_brands cenvErr cparse0 cbase
        (get_brands cenvErr cparse0 cbase ClientState.empty).2.1).2.2 = 3 ∧
    (get_brands cenvErr cparse0 cbase
        (get_brands cenvErr cparse0 cbase ClientState.empty).2.1).2.2 ≠ 0 :=
  ⟨by decide, by decide, by decide⟩

/-- C5 (confirmed): when the page fetch fails, `get_brand_models` and
`get_model_details` return exactly the fetch error produced by the
network (propagated without modification, no default or empty value) and
leave the entire client state — in particular the result caches —
unchanged. -/
theorem fetch_error_propagation (env : String → FetchResult) (parse : String → Doc)
    (base : String) (st : ClientState) (p q e : String) (st1 st2 : ClientState)
    (n m : Nat) :
    (get_brand_models env parse base st p = (Except.error e, st1, n) →
      st1 = st ∧ env (resolveUrl base (normPathKey p)) = Except.error e) ∧
    (get_model_details env parse base st q = (Except.error e, st2, m) →
      st2 = st ∧ env (resolveUrl base (normPathKey q)) = Except.error e) := by
  constructor
  · intro h
    cases hmc : alookup st.modelsCache (normPathKey p) with
    | some ms =>
      rw [get_brand_models_hit hmc] at h
      injection h with h1 h2
      exact absurd h1 (by simp)
    | none =>
      rcases hfp : fetchPage env base st.pageCache (normPathKey p) with ⟨r, pc', kk⟩
      cases r with
      | ok hh =>
        rw [get_brand_models_miss_ok hmc hfp] at h
        injection h with h1 h2
        exact absurd h1 (by simp)
      | error e0 =>
        rw [get_brand_models_miss_error hmc hfp] at h
        injection h with h1 h2
        injection h2 with h2 h3
        have he : e0 = e := by injection h1
        obtain ⟨-, henv, hpc, -⟩ := fetchPage_error_inv hfp
        subst he
        refine ⟨?_, henv⟩
        rw [← h2, hpc]
  · intro h
    cases hdc : alookup st.detailsCache (normPathKey q) with
    | some d =>
      rw [get_model_details_hit hdc] at h
      injection h with h1 h2
      exact absurd h1 (by simp)
    | none =>
      rcases hfp : fetchPage env base st.pageCache (normPathKey q) with ⟨r, pc', kk⟩
      cases r with
      | ok hh =>
        rw [get_model_details_miss_ok hdc hfp] at h
        injection h with h1 h2
        exact absurd h1 (by simp)
      | error e0 =>
        rw [get_model_details_miss_error hdc hfp] at h
        injection h with h1 h2
        injection h2 with h2 h3
        have he : e0 = e := by injection h1
        obtain ⟨-, henv, hpc, -⟩ := fetchPage_error_inv hfp
        subst he
        refine ⟨?_, henv⟩
        rw [← h2, hpc]

/-- Witness for C5: a refused connection surfaces from `get_brand_models`
as exactly the network error, with the fresh state unchanged. -/
theorem fetch_error_propagation_inst :
    ClientState.empty = ClientState.empty ∧
    cenvErr (resolveUrl cbase (normPathKey "/b")) = Except.error "connection refused" :=
  (fetch_error_propagation cenvErr cparse0 cbase ClientState.empty "/b" "/m"
    "connection refused" ClientState.empty ClientState.empty 1 1).1 (by decide)

/-- C6 (confirmed): `get_brands` never returns two entries with the same
path — on a brands-cache miss its result has pairwise-distinct paths —
and each returned brand is built from the FIRST link in document order
(after the junk filter) whose normalised href equals the brand's path:
first occurrence wins. -/
theorem brands_dedupe_first_wins (env : String → FetchResult) (parse : String → Doc)
    (base : String) (st : ClientState) (doc : Doc)
    (hst : st.brandsCache = none) :
    (((get_brands env parse base st).1).map (fun b => b.path)).Nodup ∧
    ((extractBrands base doc).map (fun b => b.path)).Nodup ∧
    (∀ b ∈ extractBrands base doc,
      ∃ nh, ((brandLinks doc).filter (fun x => !junkName x.1)).find?
              (fun x => normKey x.2 == b.path) = some nh
            ∧ b = mkBrand base nh) := by
  refine ⟨?_, dedupeBrandsGo_nodup base _ [], dedupeBrandsGo_first_wins base _ []⟩
  rcases htp : tryPathsGo env base possible_paths none st.pageCache 0 with ⟨ho, pc', n⟩
  cases ho with
  | none =>
    rw [get_brands_miss_none hst htp]
    simp
  | some s =>
    by_cases hs : s = ""
    · subst hs
      rw [get_brands_miss_empty hst htp]
      simp
    · rw [get_brands_miss_markup hst htp hs]
      exact dedupeBrandsGo_nodup base _ []

/-- Witness for C6: of the two anchors in `brandsDocC6` that normalise to
`"/brand/x"`, the first one ("Alpha") is the entry returned. -/
theorem brands_dedupe_first_wins_inst :
    ∃ nh, ((brandLinks brandsDocC6).filter (fun x => !junkName x.1)).find?
            (fun x => normKey x.2 == brandAlpha.path) = some nh
          ∧ brandAlpha = mkBrand cbase nh :=
  (brands_dedupe_first_wins cenvErr cparse0 cbase ClientState.empty brandsDocC6 rfl).2.2
    brandAlpha (by decide)

/-- C7 (confirmed): `get_brand_models` never returns two entries with the
same path, and each returned entry is the LAST candidate in document
order with that path (dict assignment overwrites): last occurrence wins,
the opposite of the brand rule. -/
theorem models_dedupe_last_wins (env : String → FetchResult) (parse : String → Doc)
    (base : String) (st : ClientState) (doc : Doc) (p : String) :
    ((extractModels base doc).map (fun m => m.path)).Nodup ∧
    (∀ m ∈ extractModels base doc,
      (modelEntries base doc).reverse.find? (fun x => x.path == m.path) = some m) ∧
    (∀ ms st1 n, alookup st.modelsCache (normPathKey p) = none →
      get_brand_models env parse base st p = (Except.ok ms, st1, n) →
      (ms.map (fun m => m.path)).Nodup) := by
  refine ⟨extractModels_nodup base doc, extractModels_last_wins base doc, ?_⟩
  intro ms st1 n hmc h
  rcases hfp : fetchPage env base st.pageCache (normPathKey p) with ⟨r, pc', kk⟩
  cases r with
  | error e =>
    rw [get_brand_models_miss_error hmc hfp] at h
    injection h with h1 h2
    exact absurd h1 (by simp)
  | ok hh =>
    rw [get_brand_models_miss_ok hmc hfp] at h
    injection h with h1 h2
    have hms : extractModels base (parse hh) = ms := by injection h1
    rw [← hms]
    exact extractModels_nodup base (parse hh)

/-- Witness for C7: of the two cards in `modelsDocC7` sharing the path
`"/tractor/m1"`, the later one ("Second") is the entry returned. -/
theorem models_dedupe_last_wins_inst :
    (modelEntries cbase modelsDocC7).reverse.find?
        (fun x => x.path == modelSecond.path) = some modelSecond :=
  (models_dedupe_last_wins cenvErr cparse0 cbase ClientState.empty modelsDocC7 "/b").2.1
    modelSecond (by decide)

/-- C8 (confirmed): in `get_model_details` spec extraction a later two-cell
row overwrites an earlier one with the same key — the spec mapping always
answers with the LAST accepted `(key, value)` pair in document order, and
on the concrete Engine table (`("Engine","45HP")` then
`("Engine","50HP")`) it maps `"Engine"` to `"50HP"` — and the images
sequence never exceeds 10 entries, whatever the page contains. -/
theorem details_specs_last_write_images_capped (base key k : String) (doc : Doc) :
    (extractDetails base key doc).images.length ≤ 10 ∧
    alookup (extractDetails base key doc).specs k
      = ((specPairs doc).reverse.find? (fun kv => kv.1 == k)).elim none
          (fun kv => some kv.2) ∧
    alookup (extractDetails cbase "/m" engineDoc).specs "Engine" = some "50HP" := by
  refine ⟨?_, ?_, by decide⟩
  · have himg : (extractDetails base key doc).images
        = ((doc.imgs.filter (fun s => s ≠ "")).map (fun s => pystrip s)).take 10 := rfl
    rw [himg, List.length_take]
    exact min_le_left _ _
  · have hspec : (extractDetails base key doc).specs
        = doc.tables.foldl tableSpecs [] := rfl
    rw [hspec, specs_eq_foldl_pairs]
    exact alookup_foldl_upsert_pairs (specPairs doc) [] k

/-- C9 (amended): when the client initialised successfully, a missing or
empty `path` query parameter yields HTTP 400 and the client operation is
never invoked; when the client failed to initialise, the handlers answer
503 — a 500-class status — before even looking at `path` (so the claim's
"never a 500-class response" clause fails for an uninitialised client,
see `missing_path_unavailable_client_503`). -/
theorem missing_path_param_bad_request
    (call : String → Except String (List Model))
    (call2 : String → Except String ModelDetail) (p : Option String)
    (hp : p.getD "" = "") :
    api_tg_brand_models true p call = (400, false) ∧
    api_tg_model_details true p call2 = (400, false) ∧
    api_tg_brand_models false p call = (503, false) ∧
    api_tg_model_details false p call2 = (503, false) := by
  refine ⟨?_, ?_, rfl, rfl⟩
  · simp [api_tg_brand_models, hp]
  · simp [api_tg_model_details, hp]

/-- Witness for C9: a missing `path` on a live client yields 400 on both
endpoints, without invoking the client. -/
theorem missing_path_param_bad_request_inst :
    api_tg_brand_models true none (fun _ => Except.ok []) = (400, false) ∧
    api_tg_model_details true none (fun _ => Except.ok ⟨"", "", "", [], []⟩)
      = (400, false) :=
  ⟨(missing_path_param_bad_request (fun _ => Except.ok [])
      (fun _ => Except.ok ⟨"", "", "", [], []⟩) none rfl).1,
   (missing_path_param_bad_request (fun _ => Except.ok [])
      (fun _ => Except.ok ⟨"", "", "", [], []⟩) none rfl).2.1⟩

/-- Counterexample to C9 as stated: with an uninitialised client (the
`tg_client = None` branch of `src/main.py`), a request with a missing
`path` parameter is answered 503 — a 500-class status, not a 400-class
one (the client-availability check precedes the parameter check). -/
theorem missing_path_unavailable_client_503 :
    api_tg_brand_models false none (fun _ => Except.ok []) = (503, false) ∧
    api_tg_model_details false none (fun _ => Except.ok ⟨"", "", "", [], []⟩)
      = (503, false) ∧
    500 ≤ 503 :=
  ⟨rfl, rfl, by decide⟩

/-- C10 (amended): when every candidate brand fetch raises, `get_brands`
returns `[]` leaving the whole state unchanged (the brands cache is not
written), so a repeat call re-issues all three network fetches; when
markup is obtained but extraction finds zero brands, the empty list IS
written to the brands cache and the repeat call returns it with zero
fetches.  However, a candidate fetch that SUCCEEDS with empty markup is
written to the page cache, so a repeat call after such a response does
not re-issue that network fetch (refuting the claim's "the next call
re-attempts the network fetches" in that case, see
`get_brands_empty_pages_cached_no_refetch`). -/
theorem get_brands_cache_write_policy (env : String → FetchResult)
    (parse : String → Doc) (base : String) (st : ClientState) (h : String)
    (h1 : st.brandsCache = none) (h2 : st.pageCache = []) :
    ((∀ p ∈ possible_paths, ∃ e, env (resolveUrl base p) = Except.error e) →
      get_brands env parse base st = ([], st, 3)) ∧
    (env (resolveUrl base "/tractor-brands") = Except.ok h → 500 < h.length →
      extractBrands base (parse h) = [] →
      get_brands env parse base st
        = ([], { st with
                 pageCache := [(resolveUrl base "/tractor-brands", h)],
                 brandsCache := some [] }, 1) ∧
      get_brands env parse base
          { st with
            pageCache := [(resolveUrl base "/tractor-brands", h)],
            brandsCache := some [] }
        = ([], { st with
                 pageCache := [(resolveUrl base "/tractor-brands", h)],
                 brandsCache := some [] }, 0)) := by
  constructor
  · intro hall
    obtain ⟨e1, he1⟩ := hall "/tractor-brands" (by simp [possible_paths])
    obtain ⟨e2, he2⟩ := hall "/tractor-brand" (by simp [possible_paths])
    obtain ⟨e3, he3⟩ := hall "/tractor/brands" (by simp [possible_paths])
    have f1 : fetchPage env base [] "/tractor-brands" = (Except.error e1, [], 1) :=
      fetchPage_miss_error rfl he1
    have f2 : fetchPage env base [] "/tractor-brand" = (Except.error e2, [], 1) :=
      fetchPage_miss_error rfl he2
    have f3 : fetchPage env base [] "/tractor/brands" = (Except.error e3, [], 1) :=
      fetchPage_miss_error rfl he3
    have htp : tryPathsGo env base possible_paths none st.pageCache 0
        = (none, st.pageCache, 3) := by
      rw [h2]
      simp [possible_paths, tryPathsGo, f1, f2, f3]
    rw [get_brands_miss_none h1 htp]
  · intro henv hlen hext
    have hne : h ≠ "" := by
      intro hx
      rw [hx] at hlen
      exact absurd hlen (by decide)
    have f1 : fetchPage env base [] "/tractor-brands"
        = (Except.ok h, [(resolveUrl base "/tractor-brands", h)], 1) :=
      fetchPage_miss_ok rfl henv
    have htp : tryPathsGo env base possible_paths none st.pageCache 0
        = (some h, [(resolveUrl base "/tractor-brands", h)], 1) := by
      rw [h2]
      simp only [possible_paths, tryPathsGo, f1]
      rw [if_pos ⟨hne, hlen⟩]
    constructor
    · rw [get_brands_miss_markup h1 htp hne, hext]
    · exact get_brands_hit rfl

/-- Witness for C10: with every candidate fetch refused, `get_brands`
returns `[]`, leaves the fresh state untouched, and performed three
fetches. -/
theorem get_brands_cache_write_policy_inst :
    get_brands cenvErr cparse0 cbase ClientState.empty
      = ([], ClientState.empty, 3) :=
  (get_brands_cache_write_policy cenvErr cparse0 cbase ClientState.empty "x" rfl rfl).1
    (fun _ _ => ⟨"connection refused", rfl⟩)

/-- Counterexample to the C10 clause "the next call re-attempts the
network fetches": when every candidate fetch SUCCEEDS with an empty body,
the brands cache is indeed left unwritten and `[]` is returned — but the
empty pages land in the page cache, so the next call performs ZERO
network fetches. -/
theorem get_brands_empty_pages_cached_no_refetch :
    (∀ p ∈ possible_paths, errorOrEmpty (cenvEmpty (resolveUrl cbase p)) = true) ∧
    (get_brands cenvEmpty cparse0 cbase ClientState.empty).1 = [] ∧
    (get_brands cenvEmpty cparse0 cbase ClientState.empty).2.1.brandsCache = none ∧
    (get_brands cenvEmpty cparse0 cbase
        (get_brands cenvEmpty cparse0 cbase ClientState.empty).2.1).2.2 = 0 :=
  ⟨by decide, by decide, by decide, by decide⟩

end TG
